import Mathlib

/-!
Verification of the task-runner core (`mrbavii/taskrun/main.py`): the
variable environment with scoped substitution, the substitution engine,
the command execution wrapper, and the task execution model.  All
definitions are shallow embeddings translated from the Python source;
the theorems settle the testable properties stated in the
specification.
-/

namespace TaskRun

/-! ## Assignment values

`Environment.__setitem__` interprets special wrapper objects
(`Delete`, `Default`, `NoChange`, `Description`); every other value is
stored verbatim.  `SetValue α` is the closed variant of the values one
can assign, with `α` the type of plain stored values (plain stored
values are opaque to the environment logic). -/

inductive SetValue (α : Type) : Type where
  /-- Assignment of an ordinary value: stored verbatim. -/
  | plain (v : α)
  /-- The `Delete` wrapper: assignment removes the variable. -/
  | delete
  /-- The `Default` wrapper: applied only if unset or previously default-set. -/
  | default (v : SetValue α)
  /-- The `NoChange` wrapper: assignment is a no-op. -/
  | nochange
  /-- The `Description` wrapper: records a help string, then assigns the wrapped value. -/
  | descr (d : String) (v : SetValue α)

/-! ## The variable environment

State of an `Environment` object restricted to the fields that the
variable operations touch: `_variables` (the mapping), the
`_variables_default` set of is-default markers, the `_variable_stack`
of snapshots, and `_var_desc`. -/

structure Env (α : Type) : Type where
  varMap : String → Option α
  varsDefault : String → Bool
  varStack : List (String → Option α)
  varDesc : String → Option String

/-- The freshly initialized environment (`Environment.__init__`). -/
def Env.empty (α : Type) : Env α :=
  ⟨fun _ => none, fun _ => false, [], fun _ => none⟩

/-- Translation of `Environment.__setitem__`: `Delete` removes the name and
its default marker; `Default` assigns the wrapped value and re-adds the
marker, but only when the name is unset or currently marked default;
`NoChange` does nothing; `Description` records the description and assigns
the wrapped value; any other value is stored directly and the default
marker is discarded. -/
def Env.setItem {α : Type} (e : Env α) (name : String) (value : SetValue α) : Env α :=
  match value with
  | .delete =>
      { e with
        varMap := fun n => if n = name then none else e.varMap n,
        varsDefault := fun n => if n = name then false else e.varsDefault n }
  | .default v =>
      if (e.varMap name).isNone || e.varsDefault name then
        let e2 := e.setItem name v
        { e2 with varsDefault := fun n => if n = name then true else e2.varsDefault n }
      else
        e
  | .nochange => e
  | .descr d v =>
      let e2 := { e with varDesc := fun n => if n = name then some d else e.varDesc n }
      e2.setItem name v
  | .plain v =>
      { e with
        varMap := fun n => if n = name then some v else e.varMap n,
        varsDefault := fun n => if n = name then false else e.varsDefault n }

/-- Translation of `Environment.update`: apply `__setitem__` for each
pair in order (Python keyword-argument dictionaries preserve insertion
order, so a list of pairs models them). -/
def Env.update {α : Type} (e : Env α) (vars : List (String × SetValue α)) : Env α :=
  vars.foldl (fun acc p => acc.setItem p.1 p.2) e

/-- Translation of `Environment.push`: append a snapshot of the current
variable mapping to the stack, then apply the supplied updates. -/
def Env.push {α : Type} (e : Env α) (vars : List (String × SetValue α)) : Env α :=
  Env.update { e with varStack := e.varMap :: e.varStack } vars

/-- Translation of `Environment.pop`: restore the most recent snapshot.
Only the `_variables` mapping is restored; the default-marker set and
descriptions are untouched.  (Popping with an empty stack raises
`IndexError` in the source; no claim exercises that path, so the empty
case is left as the identity.) -/
def Env.pop {α : Type} (e : Env α) : Env α :=
  match e.varStack with
  | v :: rest => { e with varMap := v, varStack := rest }
  | [] => e

/-! ### Basic lemmas about the environment operations -/

/-- Assignment never touches the snapshot stack. -/
theorem Env.setItem_varStack {α : Type} (e : Env α) (name : String) (v : SetValue α) :
    (e.setItem name v).varStack = e.varStack := by
  induction v generalizing e with
  | plain v => rfl
  | delete => rfl
  | nochange => rfl
  | default v ih =>
      simp only [Env.setItem]
      by_cases h : ((e.varMap name).isNone || e.varsDefault name) = true
      · simp [h, ih]
      · simp [h]
  | descr d v ih =>
      simp only [Env.setItem]
      exact ih _

/-- Updates never touch the snapshot stack. -/
theorem Env.update_varStack {α : Type} (vars : List (String × SetValue α)) (e : Env α) :
    (e.update vars).varStack = e.varStack := by
  induction vars generalizing e with
  | nil => rfl
  | cons p rest ih =>
      simp only [Env.update, List.foldl_cons] at *
      rw [ih, Env.setItem_varStack]

/-- Assignment to one name leaves every other name's value, marker and
description unchanged. -/
theorem Env.setItem_other {α : Type} (e : Env α) (name : String) (v : SetValue α)
    (k : String) (hk : k ≠ name) :
    (e.setItem name v).varMap k = e.varMap k ∧
      (e.setItem name v).varsDefault k = e.varsDefault k := by
  induction v generalizing e with
  | plain v => simp [Env.setItem, hk]
  | delete => simp [Env.setItem, hk]
  | nochange => exact ⟨rfl, rfl⟩
  | default v ih =>
      simp only [Env.setItem]
      by_cases h : ((e.varMap name).isNone || e.varsDefault name) = true
      · simp only [h, if_true]
        refine ⟨(ih e).1, ?_⟩
        simp [hk, (ih e).2]
      · simp [h]
  | descr d v ih =>
      simp only [Env.setItem]
      exact ih _

/-- If the wrapped value of a `Default` is (through nested `Default` and
`Description` wrappers) a plain value, assigning it always leaves the
name bound. -/
def SetValue.plainCore {α : Type} : SetValue α → Bool
  | .plain _ => true
  | .default v => v.plainCore
  | .descr _ v => v.plainCore
  | .delete => false
  | .nochange => false

/-- Values whose assignment preserves the marker-implies-present
invariant: anything, as long as every `Default` wraps a plain core. -/
def SetValue.safe {α : Type} : SetValue α → Bool
  | .plain _ => true
  | .delete => true
  | .nochange => true
  | .default v => v.plainCore
  | .descr _ v => v.safe

theorem Env.setItem_plainCore_isSome {α : Type} (e : Env α) (name : String)
    (v : SetValue α) (hv : v.plainCore = true) :
    ((e.setItem name v).varMap name).isSome = true := by
  induction v generalizing e with
  | plain v => simp [Env.setItem]
  | delete => simp [SetValue.plainCore] at hv
  | nochange => simp [SetValue.plainCore] at hv
  | default v ih =>
      simp only [SetValue.plainCore] at hv
      simp only [Env.setItem]
      by_cases h : ((e.varMap name).isNone || e.varsDefault name) = true
      · simp only [h, if_true]
        exact ih _ hv
      · rw [if_neg h]
        simp only [Bool.or_eq_true, Option.isNone_iff_eq_none] at h
        push_neg at h
        cases hx : e.varMap name with
        | none => exact absurd hx h.1
        | some a => simp [hx]
  | descr d v ih =>
      simp only [SetValue.plainCore] at hv
      simp only [Env.setItem]
      exact ih _ hv

/-- Safe assignments preserve the invariant that a default-marked name
is always bound. -/
theorem Env.setItem_safe_invariant {α : Type} (e : Env α) (name : String)
    (v : SetValue α) (hv : v.safe = true)
    (he : ∀ k, e.varsDefault k = true → (e.varMap k).isSome = true) :
    ∀ k, ((e.setItem name v).varsDefault k = true →
      ((e.setItem name v).varMap k).isSome = true) := by
  induction v generalizing e with
  | plain v =>
      intro k
      by_cases hk : k = name
      · subst hk; simp [Env.setItem]
      · rw [(Env.setItem_other e name _ k hk).1, (Env.setItem_other e name _ k hk).2]
        exact he k
  | delete =>
      intro k
      by_cases hk : k = name
      · subst hk; simp [Env.setItem]
      · rw [(Env.setItem_other e name _ k hk).1, (Env.setItem_other e name _ k hk).2]
        exact he k
  | nochange => exact he
  | default v ih =>
      simp only [SetValue.safe] at hv
      intro k
      simp only [Env.setItem]
      by_cases h : ((e.varMap name).isNone || e.varsDefault name) = true
      · simp only [h, if_true]
        by_cases hk : k = name
        · subst hk
          intro _
          exact Env.setItem_plainCore_isSome e k v hv
        · simp only [hk, if_false]
          rw [(Env.setItem_other e name v k hk).2]
          intro hdef
          rw [(Env.setItem_other e name v k hk).1]
          exact he k hdef
      · simp only [h, if_false]
        exact he k
  | descr d v ih =>
      simp only [SetValue.safe] at hv
      simp only [Env.setItem]
      exact ih _ hv (by simpa using he)

/-- Helper: the result of `pop` when the snapshot stack is known to be nonempty. -/
theorem Env.pop_eq {α : Type} (x : Env α) (v : String → Option α)
    (rest : List (String → Option α)) (h : x.varStack = v :: rest) :
    x.pop = { x with varMap := v, varStack := rest } := by
  unfold Env.pop
  rw [h]

/-- C1 counterexample: the claim asserts that no mutation made inside a
nested scope, including changes to a name's is-default marker, is visible
after `pop`.  Take an environment whose only variable `x` was set via
`Default` (so its marker is on), push a scope, plainly assign `x`
(clearing the marker), and pop: the value of `x` is restored, but the
marker is still cleared — the marker mutation leaked out of the scope. -/
theorem scope_isolation_counterexample :
    ((Env.empty String).setItem "x" (SetValue.default (SetValue.plain "v"))).varsDefault "x"
        = true ∧
    ((((Env.empty String).setItem "x" (SetValue.default (SetValue.plain "v"))).push []).setItem
          "x" (SetValue.plain "w")).pop.varMap "x"
        = ((Env.empty String).setItem "x" (SetValue.default (SetValue.plain "v"))).varMap "x" ∧
    ((((Env.empty String).setItem "x" (SetValue.default (SetValue.plain "v"))).push []).setItem
          "x" (SetValue.plain "w")).pop.varsDefault "x"
        = false := by
  refine ⟨by decide, ?_, by decide⟩
  decide

/-- C1 (amended): for every environment and every sequence of set/update
operations performed between `push` and the matching `pop`, after `pop`
the variable mapping and the snapshot stack are exactly their pre-push
values — every key not supplied to `push` keeps its pre-push value or
absence and any pre-existing value of a key supplied to `push` is
restored.  However the is-default marker set (and the description map)
is not snapshotted: marker mutations made inside the nested scope remain
visible after `pop`.  A single `ops` list covers every such sequence,
since a `set` is a one-pair `update` and consecutive `update`s fold
into one list. -/
theorem scope_isolation (α : Type) (e : Env α) (m ops : List (String × SetValue α)) :
    (Env.update (e.push m) ops).pop.varMap = e.varMap ∧
    (Env.update (e.push m) ops).pop.varStack = e.varStack ∧
    (Env.update (e.push m) ops).pop.varsDefault = (Env.update (e.push m) ops).varsDefault ∧
    (Env.update (e.push m) ops).pop.varDesc = (Env.update (e.push m) ops).varDesc := by
  have hstack : (Env.update (e.push m) ops).varStack = e.varMap :: e.varStack := by
    rw [Env.update_varStack, Env.push, Env.update_varStack]
  rw [Env.pop_eq _ _ _ hstack]
  exact ⟨rfl, rfl, rfl, rfl⟩

/-- C5 counterexample: the claim asserts that after any set operation at
most one of the states {has concrete value, has default marker, absent}
holds for the name that was set.  Assigning `Default(NoChange())` to an
unset name runs the no-op assignment and then adds the default marker:
the name ends up absent from the mapping yet carrying the marker, so the
states "absent" and "has default marker" hold simultaneously. -/
theorem default_marker_counterexample :
    ((Env.empty String).setItem "x" (SetValue.default SetValue.nochange)).varsDefault "x"
        = true ∧
    ((Env.empty String).setItem "x" (SetValue.default SetValue.nochange)).varMap "x"
        = none := by
  constructor <;> decide

/-- C5 (amended): a plain assignment stores the value and always clears
the default marker; a `Delete` removes both the value and the marker; a
`Default` assignment is a no-op unless the name is unset or was itself
last set via a `Default`, in which case it assigns the wrapped value and
sets the marker.  The exclusivity invariant (a marker-carrying name is
always bound, so the three states concrete/default-marked/absent are
mutually exclusive) is preserved by every assignment in which each
`Default` wraps a plain value; it can be broken when a `Default` wraps a
`Delete` or `NoChange` marker. -/
theorem default_marker_claims (α : Type) (e : Env α) (n : String) (a : α)
    (w v : SetValue α) :
    ((e.setItem n (SetValue.plain a)).varMap n = some a ∧
      (e.setItem n (SetValue.plain a)).varsDefault n = false) ∧
    ((e.setItem n SetValue.delete).varMap n = none ∧
      (e.setItem n SetValue.delete).varsDefault n = false) ∧
    (((e.varMap n).isNone || e.varsDefault n) = false →
      e.setItem n (SetValue.default w) = e) ∧
    (((e.varMap n).isNone || e.varsDefault n) = true →
      (e.setItem n (SetValue.default (SetValue.plain a))).varMap n = some a ∧
        (e.setItem n (SetValue.default (SetValue.plain a))).varsDefault n = true) ∧
    ((∀ k, e.varsDefault k = true → (e.varMap k).isSome = true) → v.safe = true →
      ∀ k, (e.setItem n v).varsDefault k = true →
        ((e.setItem n v).varMap k).isSome = true) := by
  refine ⟨⟨by simp [Env.setItem], by simp [Env.setItem]⟩,
    ⟨by simp [Env.setItem], by simp [Env.setItem]⟩, ?_, ?_, ?_⟩
  · intro h
    show (if (e.varMap n).isNone || e.varsDefault n then _ else e) = e
    rw [if_neg (by simp [h])]
  · intro h
    constructor
    · show ((if (e.varMap n).isNone || e.varsDefault n then _ else e).varMap n) = some a
      rw [if_pos (by simp [h])]
      simp [Env.setItem]
    · show ((if (e.varMap n).isNone || e.varsDefault n then _ else e).varsDefault n) = true
      rw [if_pos (by simp [h])]
      simp
  · intro he hv
    exact Env.setItem_safe_invariant e n v hv he

/-- C5 witness: the amended claims instantiated on a concrete
environment, with each hypothesis discharged by computation. -/
theorem default_marker_witness :
    ((((Env.empty String).varMap "x").isNone || (Env.empty String).varsDefault "x") = true ∧
      ((Env.empty String).setItem "x" (SetValue.default (SetValue.plain "1"))).varMap "x"
          = some "1" ∧
      ((Env.empty String).setItem "x" (SetValue.default (SetValue.plain "1"))).varsDefault "x"
          = true) ∧
    (∀ k, ((Env.empty String).setItem "x" (SetValue.plain "1")).varsDefault k = true →
      (((Env.empty String).setItem "x" (SetValue.plain "1")).varMap k).isSome = true) :=
  ⟨⟨by decide,
    ((default_marker_claims String (Env.empty String) "x" "1" (SetValue.plain "1")
      (SetValue.plain "1")).2.2.2.1 (by decide)).1,
    ((default_marker_claims String (Env.empty String) "x" "1" (SetValue.plain "1")
      (SetValue.plain "1")).2.2.2.1 (by decide)).2⟩,
   (default_marker_claims String (Env.empty String) "x" "1" (SetValue.plain "1")
      (SetValue.plain "1")).2.2.2.2 (by intro k h; simp [Env.empty] at h) (by decide)⟩

/-! ## The substitution engine

`Environment.subst` on strings is `re.sub` with the pattern
`\$\$|\$\(.*?\)` and a replacement function.  The replacement function
(`subfn`) resolves the placeholder body against the environment and
applies filters; it is modelled below parameterized over the variable
resolution (`eval`, which in the source is the recursive
`evaluate`/`subst` on the variable's own value) and the process-wide
filter registry (`filters`); a `none` result models a raised error. -/

/-- Translation of Python's `str.split` with a one-character separator,
as used by `var[2:-1].split("|")` and `filter.split("|")`: split at
every occurrence of the separator, keeping empty segments. -/
def splitParts (sep : Char) : List Char → List (List Char)
  | [] => [[]]
  | c :: rest =>
      let r := splitParts sep rest
      if c = sep then [] :: r
      else (c :: r.headD []) :: r.tail

/-- Translation of `Environment.callfilter`: look the filter up in the
registry and apply it; an unregistered name raises (modelled `none`). -/
def callfilter {α : Type} (filters : String → Option (α → α)) (name : String)
    (value : α) : Option α :=
  match filters name with
  | some f => some (f value)
  | none => none

/-- The loop over explicitly listed filter segments in `subfn`: an empty
segment is skipped (`continue`), every other segment is applied via
`callfilter`. -/
def applyParts {α : Type} (filters : String → Option (α → α)) :
    List (List Char) → α → Option α
  | [], value => some value
  | p :: rest, value =>
      if p.isEmpty then applyParts filters rest value
      else
        match callfilter filters (String.mk p) value with
        | some v2 => applyParts filters rest v2
        | none => none

/-- The loop over the auto-filter's pipe-delimited names in `subfn`:
every name, including an empty one, is applied via `callfilter`. -/
def applyFilters {α : Type} (filters : String → Option (α → α)) :
    List (List Char) → α → Option α
  | [], value => some value
  | p :: rest, value =>
      match callfilter filters (String.mk p) value with
      | some v2 => applyFilters filters rest v2
      | none => none

/-- Translation of the placeholder-replacement function `subfn` inside
`Environment.subst`, applied to the body between `$(` and `)`: split the
body on `|` into the variable name and filter segments, resolve the
variable, then apply either the explicitly listed filters (when at least
one segment is present) or, failing that, a truthy auto-filter's
pipe-delimited filters. -/
def subfn {α : Type} (filters : String → Option (α → α))
    (eval : String → Option α) (auto : Option String) (body : String) : Option α :=
  match eval (String.mk ((splitParts '|' body.data).headD [])) with
  | none => none
  | some value =>
      if (splitParts '|' body.data).length > 1 then
        applyParts filters ((splitParts '|' body.data).drop 1) value
      else
        match auto with
        | some f =>
            if f.isEmpty then some value
            else applyFilters filters (splitParts '|' f.data) value
        | none => some value

/-- Scan for the closing parenthesis of a placeholder: the regex branch
`\$\(.*?\)` matches lazily up to the first `)`, and `.` cannot cross a
newline, so the body ends at the first `)` and the branch fails to match
when a newline or the end of the string comes first. -/
def findBody : List Char → Option (List Char × List Char)
  | [] => none
  | c :: rest =>
      if c = ')' then some ([], rest)
      else if c = '\n' then none
      else
        match findBody rest with
        | some (body, rem) => some (c :: body, rem)
        | none => none

theorem findBody_length (l : List Char) (body rem : List Char)
    (h : findBody l = some (body, rem)) : rem.length < l.length := by
  induction l generalizing body rem with
  | nil => simp [findBody] at h
  | cons c rest ih =>
      simp only [findBody] at h
      by_cases hc : c = ')'
      · rw [if_pos hc] at h
        cases h
        simp
      · rw [if_neg hc] at h
        by_cases hn : c = '\n'
        · rw [if_pos hn] at h
          cases h
        · rw [if_neg hn] at h
          cases hrec : findBody rest with
          | none => rw [hrec] at h; cases h
          | some p =>
              rw [hrec] at h
              cases p with
              | mk b2 r2 =>
                  cases h
                  have := ih b2 rem hrec
                  simp only [List.length_cons]
                  omega

/-- Translation of the `re.sub(r"\$\$|\$\(.*?\)", subfn, value)` scan in
`Environment.subst` for string values: at each position the escape `$$`
is tried first and replaced by a single `$`; then a placeholder `$(`
with a closing `)` on the same line is replaced by the resolution
`res` of its body (a `none` resolution models a raised error); at a
position where neither branch matches, the character is copied and the
scan advances by one. -/
def substChars (res : String → Option String) : List Char → Option (List Char)
  | [] => some []
  | c :: rest =>
      if c = '$' then
        match rest with
        | [] => some ['$']
        | d :: rest2 =>
            if d = '$' then
              match substChars res rest2 with
              | some t => some ('$' :: t)
              | none => none
            else if d = '(' then
              match h : findBody rest2 with
              | some (body, rem) =>
                  match res (String.mk body) with
                  | some v =>
                      match substChars res rem with
                      | some t => some (v.data ++ t)
                      | none => none
                  | none => none
              | none =>
                  match substChars res (d :: rest2) with
                  | some t => some ('$' :: t)
                  | none => none
            else
              match substChars res (d :: rest2) with
              | some t => some ('$' :: t)
              | none => none
      else
        match substChars res rest with
        | some t => some (c :: t)
        | none => none
  termination_by l => l.length
  decreasing_by
    · simp only [List.length_cons]
      omega
    · have := findBody_length _ _ _ h
      simp only [List.length_cons]
      omega
    · simp only [List.length_cons]
      omega
    · simp only [List.length_cons]
      omega
    · simp only [List.length_cons]
      omega

/-- Translation of `Environment.subst` restricted to string values,
assembled from the scanner and the replacement function `subfn`. -/
def substStr (filters : String → Option (String → String))
    (eval : String → Option String) (auto : Option String) (s : String) : Option String :=
  match substChars (fun body => subfn filters eval auto body) s.data with
  | some l => some (String.mk l)
  | none => none

/-- Translation of `Environment.escape`: `re.sub(r"\$", "$$", value)`
doubles every dollar sign. -/
def escapeChars : List Char → List Char
  | [] => []
  | c :: rest => if c = '$' then '$' :: '$' :: escapeChars rest else c :: escapeChars rest

/-- String-level version of `Environment.escape`. -/
def Env.escape (s : String) : String :=
  String.mk (escapeChars s.data)

/-- Substituting an escaped character list restores it exactly,
whatever the resolution function is: after doubling, every dollar is
consumed by the `$$` branch before a `$(` can ever match. -/
theorem substChars_escapeChars (res : String → Option String) (l : List Char) :
    substChars res (escapeChars l) = some l := by
  induction l with
  | nil => simp [escapeChars, substChars]
  | cons c rest ih =>
      by_cases hc : c = '$'
      · subst hc
        show substChars res ('$' :: '$' :: escapeChars rest) = some ('$' :: rest)
        rw [substChars.eq_def]
        simp [ih]
      · have he : escapeChars (c :: rest) = c :: escapeChars rest := by
          simp [escapeChars, hc]
        rw [he, substChars.eq_def]
        simp [hc, ih]

theorem escapeChars_count (l : List Char) :
    (escapeChars l).count '$' = 2 * l.count '$' := by
  induction l with
  | nil => rfl
  | cons c rest ih =>
      by_cases hc : c = '$'
      · subst hc
        simp [escapeChars, List.count_cons, ih]
        omega
      · simp [escapeChars, hc, List.count_cons, ih]

/-- C2: escape round-trip.  For every string `s`, `escape` doubles every
dollar sign in `s`, and substituting the escaped string — under any
filter registry, any variable resolution and any auto-filter — returns
the original string unchanged, whatever characters (including `(` and
`)`) follow the dollars in `s`. -/
theorem escape_roundtrip (filters : String → Option (String → String))
    (eval : String → Option String) (auto : Option String) (s : String) :
    substStr filters eval auto (Env.escape s) = some s ∧
      (Env.escape s).data.count '$' = 2 * s.data.count '$' := by
  constructor
  · show substStr filters eval auto (String.mk (escapeChars s.data)) = some s
    unfold substStr
    rw [show (String.mk (escapeChars s.data)).data = escapeChars s.data from rfl]
    rw [substChars_escapeChars]
  · show (String.mk (escapeChars s.data)).data.count '$' = 2 * s.data.count '$'
    exact escapeChars_count s.data

/-- C6: filter precedence in `subfn`.  When the placeholder body lists
at least one filter segment (even a single empty one), the result is
independent of any auto-filter and equals the left-to-right application
of exactly the listed segments (empty segments skipped) to the resolved
variable; only when the body lists no segment at all is a truthy
auto-filter applied, as the left-to-right application of its
pipe-delimited names.  The two filter sources are never merged. -/
theorem filter_precedence (α : Type) (filters : String → Option (α → α))
    (eval : String → Option α) (auto : Option String) (f body : String) :
    (1 < (splitParts '|' body.data).length →
      subfn filters eval auto body = subfn filters eval none body ∧
      subfn filters eval auto body =
        ((eval (String.mk ((splitParts '|' body.data).headD []))).bind
          (applyParts filters ((splitParts '|' body.data).drop 1)))) ∧
    ((splitParts '|' body.data).length = 1 → f.isEmpty = false →
      subfn filters eval (some f) body =
        ((eval (String.mk ((splitParts '|' body.data).headD []))).bind
          (applyFilters filters (splitParts '|' f.data)))) := by
  constructor
  · intro hlen
    constructor
    · unfold subfn
      cases he : eval (String.mk ((splitParts '|' body.data).headD [])) with
      | none => rfl
      | some value =>
          dsimp only
          rw [if_pos hlen, if_pos hlen]
    · unfold subfn
      cases he : eval (String.mk ((splitParts '|' body.data).headD [])) with
      | none => rfl
      | some value =>
          dsimp only
          rw [if_pos hlen]
          rfl
  · intro hlen hf
    unfold subfn
    cases he : eval (String.mk ((splitParts '|' body.data).headD [])) with
    | none => rfl
    | some value =>
        dsimp only
        rw [if_neg (by omega)]
        simp [hf]

/-- Concrete filter registry used by the C6 witness: a single filter
named `up`. -/
def upFilters : String → Option (String → String) :=
  fun n => if n = "up" then some (fun v => v ++ "!") else none

/-- Concrete variable resolution used by the C6 witness. -/
def nameEval : String → Option String :=
  fun n => if n = "NAME" then some "x" else none

/-- C6 witness: the placeholder body `NAME|`, whose single filter
segment is empty, suppresses the supplied auto-filter `up`; the body
`NAME` with no segment applies the auto-filter. -/
theorem filter_precedence_witness :
    (1 < (splitParts '|' ("NAME|".data)).length ∧
      subfn upFilters nameEval (some "up") "NAME|" =
        subfn upFilters nameEval none "NAME|") ∧
    ((splitParts '|' ("NAME".data)).length = 1 ∧ ("up" : String).isEmpty = false ∧
      subfn upFilters nameEval (some "up") "NAME" =
        ((nameEval (String.mk ((splitParts '|' ("NAME".data)).headD []))).bind
          (applyFilters upFilters (splitParts '|' (("up" : String).data))))) :=
  ⟨⟨by decide,
    ((filter_precedence String upFilters nameEval (some "up") "up" "NAME|").1
      (by decide)).1⟩,
   ⟨by decide, by decide,
    (filter_precedence String upFilters nameEval (some "up") "up" "NAME").2
      (by decide) (by decide)⟩⟩

/-! ## Error taxonomy and the command execution wrapper

The exception classes declared at the top of the source file, together
with Python's built-in `Exception` and `OSError` (the class raised by
`subprocess.Popen` when the process cannot be launched). -/

inductive ExcClass : Type where
  | exception
  | osError
  | errorBase
  | scriptError
  | variableError
  | commandError
  | shellError
deriving DecidableEq

/-- The superclass chain of each class, from the class declarations:
`Error(Exception)`, `ScriptError(Error)`, `VariableError(ScriptError)`,
`CommandError(ScriptError)`, `ShellError(CommandError)`, and Python's
`OSError(Exception)`.  Each list is the class followed by its
transitive superclasses. -/
def ExcClass.supers : ExcClass → List ExcClass
  | .exception => [.exception]
  | .osError => [.osError, .exception]
  | .errorBase => [.errorBase, .exception]
  | .scriptError => [.scriptError, .errorBase, .exception]
  | .variableError => [.variableError, .scriptError, .errorBase, .exception]
  | .commandError => [.commandError, .scriptError, .errorBase, .exception]
  | .shellError => [.shellError, .commandError, .scriptError, .errorBase, .exception]

/-- Subclass test: `a` is (a subclass of) `b`. -/
def ExcClass.isSubclass (a b : ExcClass) : Bool :=
  b ∈ a.supers

/-- The seven failure kinds named by the specification's taxonomy. -/
inductive FailureKind : Type where
  | unsetVariable
  | unregisteredFilter
  | duplicateTask
  | unknownTask
  | reservedName
  | shellLaunchFailure
  | unexpectedReturnCode
deriving DecidableEq

/-- The exception class the source actually raises for each failure
kind: `__getitem__` raises `VariableError`; `callfilter`, the `task`
decorator, `calltask` and the command-line parameter check all raise
the base `Error`; a launch failure propagates `subprocess.Popen`'s
`OSError` uncaught; an unexpected return code raises `CommandError`. -/
def raisedClass : FailureKind → ExcClass
  | .unsetVariable => .variableError
  | .unregisteredFilter => .errorBase
  | .duplicateTask => .errorBase
  | .unknownTask => .errorBase
  | .reservedName => .errorBase
  | .shellLaunchFailure => .osError
  | .unexpectedReturnCode => .commandError

/-- C8 counterexample: the claim says every error raised for the seven
failure kinds is a subkind of `ScriptError`.  An unregistered filter
name makes `callfilter` raise the base `Error` class, which is a
superclass — not a subclass — of `ScriptError`. -/
theorem error_taxonomy_counterexample :
    (raisedClass FailureKind.unregisteredFilter).isSubclass ExcClass.scriptError = false ∧
      raisedClass FailureKind.unregisteredFilter = ExcClass.errorBase := by
  constructor <;> rfl

/-- C8 (amended): of the seven failure kinds, only the unset-variable
and unexpected-return-code errors are raised as proper subkinds of
`ScriptError` (`VariableError` and `CommandError`, with `ScriptError`
itself a subkind of `Error`).  Unregistered filter, duplicate task,
unknown task and reserved command-line name raise the base `Error`
class directly, and a shell launch failure propagates the host
`OSError`, which is outside the script-error hierarchy entirely. -/
theorem error_taxonomy :
    (raisedClass FailureKind.unsetVariable = ExcClass.variableError ∧
      ExcClass.variableError.isSubclass ExcClass.scriptError = true) ∧
    (raisedClass FailureKind.unexpectedReturnCode = ExcClass.commandError ∧
      ExcClass.commandError.isSubclass ExcClass.scriptError = true) ∧
    ExcClass.scriptError.isSubclass ExcClass.errorBase = true ∧
    ExcClass.errorBase.isSubclass ExcClass.exception = true ∧
    raisedClass FailureKind.unregisteredFilter = ExcClass.errorBase ∧
    raisedClass FailureKind.duplicateTask = ExcClass.errorBase ∧
    raisedClass FailureKind.unknownTask = ExcClass.errorBase ∧
    raisedClass FailureKind.reservedName = ExcClass.errorBase ∧
    ExcClass.errorBase.isSubclass ExcClass.scriptError = false ∧
    raisedClass FailureKind.shellLaunchFailure = ExcClass.osError ∧
    ExcClass.osError.isSubclass ExcClass.errorBase = false := by
  refine ⟨⟨rfl, rfl⟩, ⟨rfl, rfl⟩, rfl, rfl, rfl, rfl, rfl, rfl, rfl, rfl, rfl⟩

/-! ### The command execution wrapper -/

/-- Translation of the `RunResult` record returned by `Environment.run`:
captured stdout and stderr (absent when not piped), the process return
code, and the `_result` success flag. -/
structure RunResult : Type where
  stdout : Option String
  stderr : Option String
  retcode : Int
  res : Bool
deriving DecidableEq

/-- Outcome of the launched process, an input external to the model:
either the process could not be launched (`subprocess.Popen` raises
`OSError`) or it ran to completion with a return code and the streams
captured from the configured pipes. -/
inductive ProcResult : Type where
  | launchFailure
  | exited (retcode : Int) (stdout stderr : Option String)
deriving DecidableEq

/-- Outcome of `Environment.run`: a returned `RunResult` or a raised
exception class. -/
inductive RunOutcome : Type where
  | ok (r : RunResult)
  | raised (e : ExcClass)
deriving DecidableEq

/-- Translation of the tail of `Environment.run`, from the
`subprocess.Popen` call on: a launch failure propagates `OSError`;
otherwise, if the return code is not among `retvals` and `abort` is
set, `CommandError` is raised; otherwise a `RunResult` is returned
whose success flag is the membership of the return code in
`retvals`. -/
def runFromProcess (proc : ProcResult) (abort : Bool) (retvals : List Int) : RunOutcome :=
  match proc with
  | .launchFailure => .raised .osError
  | .exited rc out err =>
      if ¬ rc ∈ retvals ∧ abort = true then .raised .commandError
      else .ok ⟨out, err, rc, decide (rc ∈ retvals)⟩

/-- C7: return-code policy of `run`.  For every execution that launches,
`run` raises `CommandError` exactly when the return code is outside the
acceptable set and `abort` is set; in every non-raising case it returns
a `RunResult` whose success flag equals membership of the return code in
the acceptable set, regardless of the abort setting. -/
theorem run_retcode_policy (rc : Int) (out err : Option String) (abort : Bool)
    (retvals : List Int) :
    (runFromProcess (ProcResult.exited rc out err) abort retvals
        = RunOutcome.raised ExcClass.commandError ↔ (¬ rc ∈ retvals ∧ abort = true)) ∧
    (∀ r : RunResult,
      runFromProcess (ProcResult.exited rc out err) abort retvals = RunOutcome.ok r →
        r.res = decide (rc ∈ retvals) ∧ r.retcode = rc ∧ r.stdout = out ∧ r.stderr = err) := by
  constructor
  · constructor
    · intro h
      by_cases hc : ¬ rc ∈ retvals ∧ abort = true
      · exact hc
      · rw [runFromProcess, if_neg hc] at h
        cases h
    · intro hc
      rw [runFromProcess, if_pos hc]
  · intro r h
    by_cases hc : ¬ rc ∈ retvals ∧ abort = true
    · rw [runFromProcess, if_pos hc] at h
      cases h
    · rw [runFromProcess, if_neg hc] at h
      cases h
      exact ⟨rfl, rfl, rfl, rfl⟩

/-- C7 witness: a process that exits with code 1 against acceptable
codes `{0}` and `abort = false` returns a failed `RunResult`. -/
theorem run_retcode_policy_witness :
    runFromProcess (ProcResult.exited 1 none none) false [0]
        = RunOutcome.ok ⟨none, none, 1, false⟩ ∧
    (⟨none, none, 1, false⟩ : RunResult).res = decide ((1 : Int) ∈ [(0 : Int)]) :=
  ⟨by decide,
   ((run_retcode_policy 1 none none false [0]).2 ⟨none, none, 1, false⟩ (by decide)).1⟩

/-- C9 counterexample: the claim says a process launch failure causes
`run` to fail with `ShellLaunchError`.  In the source `ShellError` is
declared but never raised: a launch failure propagates the host
`OSError`, which is not `ShellError` (nor any subclass of it). -/
theorem launch_failure_counterexample :
    runFromProcess ProcResult.launchFailure true [0]
        = RunOutcome.raised ExcClass.osError ∧
    ExcClass.osError ≠ ExcClass.shellError ∧
    ExcClass.osError.isSubclass ExcClass.shellError = false := by
  refine ⟨rfl, by decide, rfl⟩

/-- C9 (amended): a process launch failure makes `run` propagate the
host `OSError` (the declared `ShellError` class is never raised and the
`OSError` is outside the `ScriptError` hierarchy), while a successfully
launched process exiting with a code outside the acceptable set fails
with `CommandError`; the two outcomes are distinguishable by error
kind. -/
theorem launch_failure_distinction (abort : Bool) (retvals : List Int) (rc : Int)
    (out err : Option String) :
    runFromProcess ProcResult.launchFailure abort retvals
        = RunOutcome.raised ExcClass.osError ∧
    (¬ rc ∈ retvals →
      runFromProcess (ProcResult.exited rc out err) true retvals
          = RunOutcome.raised ExcClass.commandError) ∧
    ExcClass.osError ≠ ExcClass.commandError ∧
    ExcClass.osError.isSubclass ExcClass.scriptError = false := by
  refine ⟨rfl, ?_, by decide, rfl⟩
  intro h
  rw [runFromProcess, if_pos ⟨h, rfl⟩]

/-- C9 witness: return code 1 against acceptable codes `{0}`
distinguishes the two failure kinds. -/
theorem launch_failure_distinction_witness :
    ¬ (1 : Int) ∈ [(0 : Int)] ∧
    runFromProcess (ProcResult.exited 1 none none) true [0]
        = RunOutcome.raised ExcClass.commandError ∧
    runFromProcess ProcResult.launchFailure true [0]
        = RunOutcome.raised ExcClass.osError :=
  ⟨by decide,
   (launch_failure_distinction true [0] 1 none none).2.1 (by decide),
   (launch_failure_distinction true [0] 1 none none).1⟩

/-! ## The task execution model

Translation of `Task.execute`, `Environment.calltask` and the
registration data.  A `Task` object's registration-time data (its
`_once` flag, dependency tuple and default variables, the latter with
`Description` wrappers already unwrapped by `Task.__init__`) is a
`TaskDef`; the mutable `_called` flags live in the execution state,
indexed by a task-definition identifier.  Task bodies are arbitrary
host functions in the source; they are modelled as opaque actions that
emit an observation event carrying the current variable mapping and
either return or raise, the choice (`bodyFail`, indexed by how often
the body has run) being a parameter of the program.  Errors propagate
like Python exceptions: an erroneous outcome carries the state at the
raise point, and the `with self._env` block pops the pushed scope on
every exit path. -/

structure TaskDef (α : Type) : Type where
  once : Bool
  depends : List String
  vars : List (String × SetValue α)

/-- A fully registered program: the `_tasks` mapping from name to the
list of task-definition identifiers registered under it, the
definitions themselves, and the modelled body behavior. -/
structure Prog (α : Type) : Type where
  taskLists : String → Option (List Nat)
  taskdefs : Nat → TaskDef α
  bodyFail : Nat → Nat → Bool

/-- Mutable execution state: the environment, the per-definition
`_called` flags, and the per-definition count of body runs (model
instrumentation for `bodyFail`). -/
structure St (α : Type) : Type where
  env : Env α
  called : Nat → Bool
  runs : Nat → Nat

/-- Observable events: the body of task definition `id` ran while the
environment's variable mapping was `vars`. -/
inductive Event (α : Type) : Type where
  | bodyRun (id : Nat) (vars : String → Option α)

/-- Errors raised during task execution: `calltask` on an unregistered
name raises the base `Error`; a body may raise; `outOfFuel` marks runs
that exceed the modelling recursion bound (the source recurses without
cycle detection). -/
inductive RunErr : Type where
  | outOfFuel
  | noSuchTask (name : String)
  | bodyFailed (id : Nat)
deriving DecidableEq

/-- Result of a task-execution fragment: the final state, the emitted
trace, and the raised error, if any (the state reflects all side
effects up to the raise point). -/
structure Outcome (α : Type) : Type where
  st : St α
  tr : List (Event α)
  err : Option RunErr

/-- Shape of `Environment.calltask` as invoked recursively. -/
abbrev CallFn (α : Type) : Type :=
  String → List (String × SetValue α) → St α → Outcome α

/-- Run a task body (the `self._fn()` call): emit the observation event
and fail iff the modelled behavior says this run raises. -/
def runBody {α : Type} (P : Prog α) (id : Nat) (st : St α) : Outcome α :=
  let st2 : St α := { st with runs := fun j => if j = id then st.runs id + 1 else st.runs j }
  if P.bodyFail id (st.runs id) then
    ⟨st2, [Event.bodyRun id st.env.varMap], some (RunErr.bodyFailed id)⟩
  else
    ⟨st2, [Event.bodyRun id st.env.varMap], none⟩

/-- The dependency loop in `Task.execute`: invoke each dependency name
in listed order with no extra variables, stopping at the first error. -/
def execDepsWith {α : Type} (callt : CallFn α) : List String → St α → Outcome α
  | [], st => ⟨st, [], none⟩
  | d :: rest, st =>
      let o := callt d [] st
      match o.err with
      | some e => ⟨o.st, o.tr, some e⟩
      | none =>
          let o2 := execDepsWith callt rest o.st
          ⟨o2.st, o.tr ++ o2.tr, o2.err⟩

/-- The non-skipped path of `Task.execute`: enter the `with` block
(push a scope), apply the task's default variables then the caller's
extra variables, run the dependencies, run the body, set `_called`,
and pop the scope — also on the error paths, as `__exit__` does. -/
def runEntryWith {α : Type} (callt : CallFn α) (P : Prog α) (id : Nat)
    (vars : List (String × SetValue α)) (st : St α) : Outcome α :=
  let t := P.taskdefs id
  let env2 := ((st.env.push []).update t.vars).update vars
  let od := execDepsWith callt t.depends { st with env := env2 }
  match od.err with
  | some e => ⟨{ od.st with env := od.st.env.pop }, od.tr, some e⟩
  | none =>
      let ob := runBody P id od.st
      match ob.err with
      | some e => ⟨{ ob.st with env := ob.st.env.pop }, od.tr ++ ob.tr, some e⟩
      | none =>
          let st2 : St α :=
            { ob.st with called := fun j => if j = id then true else ob.st.called j }
          ⟨{ st2 with env := st2.env.pop }, od.tr ++ ob.tr, none⟩

/-- Translation of `Task.execute`: a `once` task whose `_called` flag is
set returns immediately; otherwise the full path runs. -/
def execEntryWith {α : Type} (callt : CallFn α) (P : Prog α) (id : Nat)
    (vars : List (String × SetValue α)) (st : St α) : Outcome α :=
  if (P.taskdefs id).once && st.called id then ⟨st, [], none⟩
  else runEntryWith callt P id vars st

/-- The loop in `Environment.calltask` over all definitions registered
under one name, each receiving the same extra variables. -/
def execListWith {α : Type} (callt : CallFn α) (P : Prog α) :
    List Nat → List (String × SetValue α) → St α → Outcome α
  | [], _, st => ⟨st, [], none⟩
  | id :: rest, vars, st =>
      let o := execEntryWith callt P id vars st
      match o.err with
      | some e => ⟨o.st, o.tr, some e⟩
      | none =>
          let o2 := execListWith callt P rest vars o.st
          ⟨o2.st, o.tr ++ o2.tr, o2.err⟩

/-- Translation of `Environment.calltask`, with a recursion bound:
look the name up in `_tasks` (raising the base `Error` when absent) and
execute every registered definition in order. -/
def calltaskF {α : Type} (P : Prog α) : Nat → CallFn α
  | 0 => fun _ _ st => ⟨st, [], some RunErr.outOfFuel⟩
  | fuel + 1 => fun name vars st =>
      match P.taskLists name with
      | none => ⟨st, [], some (RunErr.noSuchTask name)⟩
      | some ids => execListWith (calltaskF P fuel) P ids vars st

/-- Number of body-run events of definition `id` in a trace. -/
def countBody {α : Type} (id : Nat) (tr : List (Event α)) : Nat :=
  tr.countP (fun e => match e with | .bodyRun j _ => j == id)

/-! ### Scope discipline: every fragment restores the variable mapping
and the snapshot stack, on success and on error alike. -/

/-- Property of a call function: it leaves the variable mapping and the
snapshot stack exactly as it found them. -/
def PreservesEnv {α : Type} (callt : CallFn α) : Prop :=
  ∀ n vars st, (callt n vars st).st.env.varMap = st.env.varMap ∧
    (callt n vars st).st.env.varStack = st.env.varStack

theorem execDepsWith_env {α : Type} (callt : CallFn α) (h : PreservesEnv callt)
    (deps : List String) (st : St α) :
    (execDepsWith callt deps st).st.env.varMap = st.env.varMap ∧
    (execDepsWith callt deps st).st.env.varStack = st.env.varStack := by
  induction deps generalizing st with
  | nil => exact ⟨rfl, rfl⟩
  | cons d rest ih =>
      simp only [execDepsWith]
      cases he : (callt d [] st).err with
      | some e => exact ⟨(h d [] st).1, (h d [] st).2⟩
      | none =>
          refine ⟨?_, ?_⟩
          · show (execDepsWith callt rest (callt d [] st).st).st.env.varMap = st.env.varMap
            rw [(ih ((callt d [] st).st)).1, (h d [] st).1]
          · show (execDepsWith callt rest (callt d [] st).st).st.env.varStack
                = st.env.varStack
            rw [(ih ((callt d [] st).st)).2, (h d [] st).2]

/-- Running a body never touches the environment. -/
theorem runBody_env {α : Type} (P : Prog α) (id : Nat) (st : St α) :
    (runBody P id st).st.env = st.env := by
  unfold runBody
  by_cases hb : P.bodyFail id (st.runs id) = true
  · rw [if_pos hb]
  · rw [if_neg hb]

/-- Running a body never touches the called flags. -/
theorem runBody_called {α : Type} (P : Prog α) (id : Nat) (st : St α) :
    (runBody P id st).st.called = st.called := by
  unfold runBody
  by_cases hb : P.bodyFail id (st.runs id) = true
  · rw [if_pos hb]
  · rw [if_neg hb]

/-- The trace of a body run is its single observation event. -/
theorem runBody_tr {α : Type} (P : Prog α) (id : Nat) (st : St α) :
    (runBody P id st).tr = [Event.bodyRun id st.env.varMap] := by
  unfold runBody
  by_cases hb : P.bodyFail id (st.runs id) = true
  · rw [if_pos hb]
  · rw [if_neg hb]

theorem runEntryWith_env {α : Type} (callt : CallFn α) (h : PreservesEnv callt)
    (P : Prog α) (id : Nat) (vars : List (String × SetValue α)) (st : St α) :
    (runEntryWith callt P id vars st).st.env.varMap = st.env.varMap ∧
    (runEntryWith callt P id vars st).st.env.varStack = st.env.varStack := by
  have hdep := execDepsWith_env callt h (P.taskdefs id).depends
    { st with env := ((st.env.push []).update (P.taskdefs id).vars).update vars }
  have hstack : (((st.env.push []).update (P.taskdefs id).vars).update vars).varStack
      = st.env.varMap :: st.env.varStack := by
    rw [Env.update_varStack, Env.update_varStack]
    rfl
  have hpop :
      (execDepsWith callt (P.taskdefs id).depends
        { st with env := ((st.env.push []).update (P.taskdefs id).vars).update vars
        }).st.env.pop
      = { (execDepsWith callt (P.taskdefs id).depends
            { st with env := ((st.env.push []).update (P.taskdefs id).vars).update vars
            }).st.env with
          varMap := st.env.varMap, varStack := st.env.varStack } := by
    apply Env.pop_eq
    rw [hdep.2, hstack]
  simp only [runEntryWith]
  cases he : (execDepsWith callt (P.taskdefs id).depends
      { st with env := ((st.env.push []).update (P.taskdefs id).vars).update vars }).err with
  | some e =>
      rw [hpop]
      exact ⟨rfl, rfl⟩
  | none =>
      cases hbe : (runBody P id (execDepsWith callt (P.taskdefs id).depends
          { st with env := ((st.env.push []).update (P.taskdefs id).vars).update vars
          }).st).err with
      | some e =>
          rw [runBody_env, hpop]
          exact ⟨rfl, rfl⟩
      | none =>
          rw [runBody_env, hpop]
          exact ⟨rfl, rfl⟩

theorem execEntryWith_env {α : Type} (callt : CallFn α) (h : PreservesEnv callt)
    (P : Prog α) (id : Nat) (vars : List (String × SetValue α)) (st : St α) :
    (execEntryWith callt P id vars st).st.env.varMap = st.env.varMap ∧
    (execEntryWith callt P id vars st).st.env.varStack = st.env.varStack := by
  unfold execEntryWith
  by_cases hc : ((P.taskdefs id).once && st.called id) = true
  · rw [if_pos hc]
    exact ⟨rfl, rfl⟩
  · rw [if_neg hc]
    exact runEntryWith_env callt h P id vars st

theorem execListWith_env {α : Type} (callt : CallFn α) (h : PreservesEnv callt)
    (P : Prog α) (ids : List Nat) (vars : List (String × SetValue α)) (st : St α) :
    (execListWith callt P ids vars st).st.env.varMap = st.env.varMap ∧
    (execListWith callt P ids vars st).st.env.varStack = st.env.varStack := by
  induction ids generalizing st with
  | nil => exact ⟨rfl, rfl⟩
  | cons id rest ih =>
      simp only [execListWith]
      cases he : (execEntryWith callt P id vars st).err with
      | some e => exact ⟨(execEntryWith_env callt h P id vars st).1,
          (execEntryWith_env callt h P id vars st).2⟩
      | none =>
          refine ⟨?_, ?_⟩
          · show (execListWith callt P rest vars
                (execEntryWith callt P id vars st).st).st.env.varMap = st.env.varMap
            rw [(ih ((execEntryWith callt P id vars st).st)).1,
              (execEntryWith_env callt h P id vars st).1]
          · show (execListWith callt P rest vars
                (execEntryWith callt P id vars st).st).st.env.varStack = st.env.varStack
            rw [(ih ((execEntryWith callt P id vars st).st)).2,
              (execEntryWith_env callt h P id vars st).2]

/-- Every bounded run of `calltask` restores the variable mapping and
the snapshot stack, whether it succeeds or raises. -/
theorem calltaskF_env {α : Type} (P : Prog α) :
    ∀ fuel, PreservesEnv (calltaskF P fuel) := by
  intro fuel
  induction fuel with
  | zero => intro n vars st; exact ⟨rfl, rfl⟩
  | succ fuel ih =>
      intro n vars st
      simp only [calltaskF]
      cases hn : P.taskLists n with
      | none => exact ⟨rfl, rfl⟩
      | some ids => exact execListWith_env (calltaskF P fuel) ih P ids vars st

/-! ### Locality: executions that never invoke the task name under
which definition `id` is registered neither change its called flag nor
run its body. -/

theorem countBody_append {α : Type} (id : Nat) (a b : List (Event α)) :
    countBody id (a ++ b) = countBody id a + countBody id b :=
  List.countP_append _ _ _

theorem countBody_single {α : Type} (id j : Nat) (v : String → Option α) :
    countBody id [Event.bodyRun j v] = if j = id then 1 else 0 := by
  simp [countBody, List.countP_cons]

/-- Property of a call function: invocations of any name other than
`name` preserve the called flag of definition `id` and never run its
body. -/
def AvoidsTask {α : Type} (name : String) (id : Nat) (callt : CallFn α) : Prop :=
  ∀ n vars st, n ≠ name →
    (callt n vars st).st.called id = st.called id ∧
    countBody id (callt n vars st).tr = 0

theorem execDepsWith_avoid {α : Type} (name : String) (id : Nat) (callt : CallFn α)
    (h : AvoidsTask name id callt) (deps : List String) :
    ∀ st : St α, (∀ d ∈ deps, d ≠ name) →
      (execDepsWith callt deps st).st.called id = st.called id ∧
      countBody id (execDepsWith callt deps st).tr = 0 := by
  induction deps with
  | nil => intro st hd; exact ⟨rfl, rfl⟩
  | cons d rest ih =>
      intro st hd
      have hd1 : d ≠ name := hd d (by simp)
      have hdr : ∀ x ∈ rest, x ≠ name := fun x hx => hd x (by simp [hx])
      simp only [execDepsWith]
      cases he : (callt d [] st).err with
      | some e => exact ⟨(h d [] st hd1).1, (h d [] st hd1).2⟩
      | none =>
          constructor
          · show (execDepsWith callt rest (callt d [] st).st).st.called id = st.called id
            rw [(ih ((callt d [] st).st) hdr).1, (h d [] st hd1).1]
          · show countBody id
                ((callt d [] st).tr ++ (execDepsWith callt rest (callt d [] st).st).tr) = 0
            rw [countBody_append, (ih ((callt d [] st).st) hdr).2, (h d [] st hd1).2]

theorem runEntryWith_avoid {α : Type} (name : String) (id : Nat) (callt : CallFn α)
    (h : AvoidsTask name id callt) (P : Prog α)
    (hdep : ∀ j, ¬ name ∈ (P.taskdefs j).depends) (j : Nat) (hj : j ≠ id)
    (vars : List (String × SetValue α)) (st : St α) :
    (runEntryWith callt P j vars st).st.called id = st.called id ∧
    countBody id (runEntryWith callt P j vars st).tr = 0 := by
  have hd : ∀ d ∈ (P.taskdefs j).depends, d ≠ name := by
    intro d hdd hdn
    exact hdep j (hdn ▸ hdd)
  have hdeps := execDepsWith_avoid name id callt h (P.taskdefs j).depends
    { st with env := ((st.env.push []).update (P.taskdefs j).vars).update vars } hd
  simp only [runEntryWith]
  cases he : (execDepsWith callt (P.taskdefs j).depends
      { st with env := ((st.env.push []).update (P.taskdefs j).vars).update vars }).err with
  | some e => exact ⟨hdeps.1, hdeps.2⟩
  | none =>
      cases hbe : (runBody P j (execDepsWith callt (P.taskdefs j).depends
          { st with env := ((st.env.push []).update (P.taskdefs j).vars).update vars
          }).st).err with
      | some e =>
          constructor
          · rw [runBody_called]
            exact hdeps.1
          · rw [countBody_append, runBody_tr, countBody_single, if_neg hj, hdeps.2]
      | none =>
          constructor
          · show (if id = j then true else (runBody P j (execDepsWith callt
                (P.taskdefs j).depends { st with env :=
                  ((st.env.push []).update (P.taskdefs j).vars).update vars
                }).st).st.called id) = st.called id
            rw [if_neg (Ne.symm hj), runBody_called]
            exact hdeps.1
          · rw [countBody_append, runBody_tr, countBody_single, if_neg hj, hdeps.2]

theorem execEntryWith_avoid {α : Type} (name : String) (id : Nat) (callt : CallFn α)
    (h : AvoidsTask name id callt) (P : Prog α)
    (hdep : ∀ j, ¬ name ∈ (P.taskdefs j).depends) (j : Nat) (hj : j ≠ id)
    (vars : List (String × SetValue α)) (st : St α) :
    (execEntryWith callt P j vars st).st.called id = st.called id ∧
    countBody id (execEntryWith callt P j vars st).tr = 0 := by
  unfold execEntryWith
  by_cases hc : ((P.taskdefs j).once && st.called j) = true
  · rw [if_pos hc]
    exact ⟨rfl, rfl⟩
  · rw [if_neg hc]
    exact runEntryWith_avoid name id callt h P hdep j hj vars st

theorem execListWith_avoid {α : Type} (name : String) (id : Nat) (callt : CallFn α)
    (h : AvoidsTask name id callt) (P : Prog α)
    (hdep : ∀ j, ¬ name ∈ (P.taskdefs j).depends) (ids : List Nat) :
    ∀ (vars : List (String × SetValue α)) (st : St α), (∀ j ∈ ids, j ≠ id) →
      (execListWith callt P ids vars st).st.called id = st.called id ∧
      countBody id (execListWith callt P ids vars st).tr = 0 := by
  induction ids with
  | nil => intro vars st hids; exact ⟨rfl, rfl⟩
  | cons j rest ih =>
      intro vars st hids
      have hj : j ≠ id := hids j (by simp)
      have hrest : ∀ x ∈ rest, x ≠ id := fun x hx => hids x (by simp [hx])
      simp only [execListWith]
      cases he : (execEntryWith callt P j vars st).err with
      | some e => exact ⟨(execEntryWith_avoid name id callt h P hdep j hj vars st).1,
          (execEntryWith_avoid name id callt h P hdep j hj vars st).2⟩
      | none =>
          constructor
          · show (execListWith callt P rest vars
                (execEntryWith callt P j vars st).st).st.called id = st.called id
            rw [(ih vars ((execEntryWith callt P j vars st).st) hrest).1,
              (execEntryWith_avoid name id callt h P hdep j hj vars st).1]
          · show countBody id ((execEntryWith callt P j vars st).tr ++
                (execListWith callt P rest vars (execEntryWith callt P j vars st).st).tr) = 0
            rw [countBody_append, (ih vars ((execEntryWith callt P j vars st).st) hrest).2,
              (execEntryWith_avoid name id callt h P hdep j hj vars st).2]

/-- When definition `id` is registered only under `name` and `name`
appears in no dependency list, bounded `calltask` runs of any other
name preserve `id`'s called flag and never run its body. -/
theorem calltaskF_avoid {α : Type} (name : String) (id : Nat) (P : Prog α)
    (h1 : ∀ n, id ∈ (P.taskLists n).getD [] → n = name)
    (hdep : ∀ j, ¬ name ∈ (P.taskdefs j).depends) :
    ∀ fuel, AvoidsTask name id (calltaskF P fuel) := by
  intro fuel
  induction fuel with
  | zero => intro n vars st hn; exact ⟨rfl, rfl⟩
  | succ fuel ih =>
      intro n vars st hn
      simp only [calltaskF]
      cases hls : P.taskLists n with
      | none => exact ⟨rfl, rfl⟩
      | some ids =>
          apply execListWith_avoid name id (calltaskF P fuel) ih P hdep ids vars st
          intro j hjmem hcontra
          apply hn
          apply h1 n
          rw [hls]
          simpa [hcontra] using hjmem

/-! ### The structure of a successful task-definition execution -/

/-- A full (non-skipped) execution succeeds exactly when its
dependencies succeed and its body does not raise. -/
theorem runEntryWith_err_none {α : Type} (callt : CallFn α) (P : Prog α) (id : Nat)
    (vars : List (String × SetValue α)) (st : St α)
    (he : (runEntryWith callt P id vars st).err = none) :
    (execDepsWith callt (P.taskdefs id).depends
      { st with env := ((st.env.push []).update (P.taskdefs id).vars).update vars }).err
        = none ∧
    P.bodyFail id ((execDepsWith callt (P.taskdefs id).depends
      { st with env := ((st.env.push []).update (P.taskdefs id).vars).update vars
      }).st.runs id) = false := by
  cases hd : (execDepsWith callt (P.taskdefs id).depends
      { st with env := ((st.env.push []).update (P.taskdefs id).vars).update vars }).err with
  | some e =>
      exfalso
      simp only [runEntryWith, hd] at he
      cases he
  | none =>
      refine ⟨rfl, ?_⟩
      cases hb : P.bodyFail id ((execDepsWith callt (P.taskdefs id).depends
          { st with env := ((st.env.push []).update (P.taskdefs id).vars).update vars
          }).st.runs id) with
      | false => rfl
      | true =>
          exfalso
          simp only [runEntryWith, hd] at he
          simp [runBody, hb] at he

/-- Equation for a full execution whose dependencies succeed and whose
body does not raise: the scope is pushed, default then extra variables
applied, dependencies run, the body observed once with the variables in
effect, `_called` set, and the scope popped. -/
theorem runEntryWith_success {α : Type} (callt : CallFn α) (P : Prog α) (id : Nat)
    (vars : List (String × SetValue α)) (st : St α)
    (hd : (execDepsWith callt (P.taskdefs id).depends
      { st with env := ((st.env.push []).update (P.taskdefs id).vars).update vars }).err
        = none)
    (hb : P.bodyFail id ((execDepsWith callt (P.taskdefs id).depends
      { st with env := ((st.env.push []).update (P.taskdefs id).vars).update vars
      }).st.runs id) = false) :
    runEntryWith callt P id vars st =
      ⟨⟨(execDepsWith callt (P.taskdefs id).depends
            { st with env := ((st.env.push []).update (P.taskdefs id).vars).update vars
            }).st.env.pop,
        fun k => if k = id then true else
          (execDepsWith callt (P.taskdefs id).depends
            { st with env := ((st.env.push []).update (P.taskdefs id).vars).update vars
            }).st.called k,
        fun k => if k = id then
          (execDepsWith callt (P.taskdefs id).depends
            { st with env := ((st.env.push []).update (P.taskdefs id).vars).update vars
            }).st.runs id + 1
        else
          (execDepsWith callt (P.taskdefs id).depends
            { st with env := ((st.env.push []).update (P.taskdefs id).vars).update vars
            }).st.runs k⟩,
       (execDepsWith callt (P.taskdefs id).depends
          { st with env := ((st.env.push []).update (P.taskdefs id).vars).update vars }).tr
         ++ [Event.bodyRun id (execDepsWith callt (P.taskdefs id).depends
            { st with env := ((st.env.push []).update (P.taskdefs id).vars).update vars
            }).st.env.varMap],
       none⟩ := by
  simp only [runEntryWith, hd]
  simp only [runBody, hb]
  rfl

/-- Equation for `calltask` on a name with a single registered
definition whose execution is not skipped and succeeds. -/
theorem calltask_single_success {α : Type} (P : Prog α) (fuel : Nat) (name : String)
    (id : Nat) (vars : List (String × SetValue α)) (st : St α)
    (hl : P.taskLists name = some [id])
    (hskip : ((P.taskdefs id).once && st.called id) = false)
    (he : (runEntryWith (calltaskF P fuel) P id vars st).err = none) :
    calltaskF P (fuel + 1) name vars st =
      ⟨(runEntryWith (calltaskF P fuel) P id vars st).st,
       (runEntryWith (calltaskF P fuel) P id vars st).tr ++ [], none⟩ := by
  simp only [calltaskF, hl, execListWith, execEntryWith, hskip, Bool.false_eq_true,
    if_false, he]

/-- Equation for `calltask` on a name with a single registered
definition whose execution is not skipped and raises. -/
theorem calltask_single_error {α : Type} (P : Prog α) (fuel : Nat) (name : String)
    (id : Nat) (vars : List (String × SetValue α)) (st : St α) (e : RunErr)
    (hl : P.taskLists name = some [id])
    (hskip : ((P.taskdefs id).once && st.called id) = false)
    (herr : (runEntryWith (calltaskF P fuel) P id vars st).err = some e) :
    calltaskF P (fuel + 1) name vars st =
      ⟨(runEntryWith (calltaskF P fuel) P id vars st).st,
       (runEntryWith (calltaskF P fuel) P id vars st).tr, some e⟩ := by
  simp only [calltaskF, hl, execListWith, execEntryWith, hskip, Bool.false_eq_true,
    if_false, herr]

/-- Equation for `calltask` on a name with a single registered `once`
definition whose called flag is already set: a complete no-op. -/
theorem calltask_single_skip {α : Type} (P : Prog α) (fuel : Nat) (name : String)
    (id : Nat) (vars : List (String × SetValue α)) (st : St α)
    (hl : P.taskLists name = some [id])
    (hskip : ((P.taskdefs id).once && st.called id) = true) :
    calltaskF P (fuel + 1) name vars st = ⟨st, [], none⟩ := by
  simp only [calltaskF, hl, execListWith, execEntryWith, hskip, if_true,
    List.append_nil]

/-- C4: dependency ordering and variable flow.  Invoking a task whose
single registered definition lists dependencies `[b, c]` first pushes a
new scope and applies the task's default variables then the caller's
extra variables (so the caller wins on conflict), then runs `b`'s
invocation fully with no extra variables, then `c`'s fully (from the
state `b` left) with no extra variables, then the task's own body (the
final trace is `b`'s trace, then `c`'s trace, then the body event,
which observes the variables in effect), marks the definition called,
and pops the scope. -/
theorem dependency_ordering (α : Type) (P : Prog α) (fuel : Nat) (name b c : String)
    (id : Nat) (vars : List (String × SetValue α)) (st : St α)
    (hl : P.taskLists name = some [id])
    (hdeps : (P.taskdefs id).depends = [b, c])
    (hskip : ((P.taskdefs id).once && st.called id) = false)
    (hberr : (calltaskF P fuel b []
        { st with env := ((st.env.push []).update (P.taskdefs id).vars).update vars }).err
      = none)
    (hcerr : (calltaskF P fuel c [] (calltaskF P fuel b []
        { st with env := ((st.env.push []).update (P.taskdefs id).vars).update vars }).st).err
      = none)
    (hbody : P.bodyFail id ((calltaskF P fuel c [] (calltaskF P fuel b []
        { st with env := ((st.env.push []).update (P.taskdefs id).vars).update vars
        }).st).st.runs id) = false) :
    calltaskF P (fuel + 1) name vars st =
      ⟨⟨(calltaskF P fuel c [] (calltaskF P fuel b []
            { st with env := ((st.env.push []).update (P.taskdefs id).vars).update vars
            }).st).st.env.pop,
        fun k => if k = id then true else (calltaskF P fuel c [] (calltaskF P fuel b []
            { st with env := ((st.env.push []).update (P.taskdefs id).vars).update vars
            }).st).st.called k,
        fun k => if k = id then (calltaskF P fuel c [] (calltaskF P fuel b []
            { st with env := ((st.env.push []).update (P.taskdefs id).vars).update vars
            }).st).st.runs id + 1
          else (calltaskF P fuel c [] (calltaskF P fuel b []
            { st with env := ((st.env.push []).update (P.taskdefs id).vars).update vars
            }).st).st.runs k⟩,
       (calltaskF P fuel b []
           { st with env := ((st.env.push []).update (P.taskdefs id).vars).update vars }).tr
         ++ ((calltaskF P fuel c [] (calltaskF P fuel b []
              { st with env := ((st.env.push []).update (P.taskdefs id).vars).update vars
              }).st).tr
           ++ [Event.bodyRun id (calltaskF P fuel c [] (calltaskF P fuel b []
              { st with env := ((st.env.push []).update (P.taskdefs id).vars).update vars
              }).st).st.env.varMap]),
       none⟩ := by
  have hdep_eq : execDepsWith (calltaskF P fuel) (P.taskdefs id).depends
      { st with env := ((st.env.push []).update (P.taskdefs id).vars).update vars } =
      ⟨(calltaskF P fuel c [] (calltaskF P fuel b []
          { st with env := ((st.env.push []).update (P.taskdefs id).vars).update vars
          }).st).st,
       (calltaskF P fuel b []
           { st with env := ((st.env.push []).update (P.taskdefs id).vars).update vars }).tr
         ++ ((calltaskF P fuel c [] (calltaskF P fuel b []
              { st with env := ((st.env.push []).update (P.taskdefs id).vars).update vars
              }).st).tr ++ []),
       none⟩ := by
    rw [hdeps]
    simp only [execDepsWith, hberr, hcerr]
  have hrun := runEntryWith_success (calltaskF P fuel) P id vars st
    (by rw [hdep_eq]) (by rw [hdep_eq]; exact hbody)
  rw [hdep_eq] at hrun
  rw [calltask_single_success P fuel name id vars st hl hskip (by rw [hrun])]
  rw [hrun]
  simp

/-- Concrete program for the task-model witnesses: task `A`
(definition 0, once, default variable `X`) depends on `B`
(definition 1) and `C` (definition 2); no body raises. -/
def progC4 : Prog String :=
  { taskLists := fun n =>
      if n = "A" then some [0]
      else if n = "B" then some [1]
      else if n = "C" then some [2]
      else none,
    taskdefs := fun j =>
      if j = 0 then ⟨true, ["B", "C"], [("X", SetValue.plain "1")]⟩
      else ⟨true, [], []⟩,
    bodyFail := fun _ _ => false }

/-- The initial execution state used by the witnesses. -/
def st0 : St String :=
  ⟨Env.empty String, fun _ => false, fun _ => 0⟩

/-- C4 witness: the dependency-ordering equation applied to the
concrete program, with every hypothesis discharged by computation. -/
theorem dependency_ordering_witness :
    (progC4.taskLists "A" = some [0] ∧ (progC4.taskdefs 0).depends = ["B", "C"]) ∧
    (calltaskF progC4 2 "A" [] st0).err = none ∧
    (calltaskF progC4 2 "A" [] st0).st.called 0 = true := by
  have h := dependency_ordering String progC4 1 "A" "B" "C" 0 [] st0
    (by decide) (by decide) (by decide) (by decide) (by decide) (by decide)
  refine ⟨⟨by decide, by decide⟩, ?_, ?_⟩
  · rw [h]
  · rw [h]
    simp

/-- C3: once semantics.  For a task registered once under `name` with
`once = true` (and, so that the two invocations under scrutiny are the
only ways to reach it, registered under no other name and named in no
dependency list), a first invocation that completes without error runs
the definition's body exactly once — the single body event observes the
environment obtained by pushing a scope and applying the task's default
variables then the first invocation's extra variables — and sets the
called flag; a second invocation with any extra variables is a complete
no-op: it returns the state unchanged, emits no event (so neither the
body nor any dependency is re-invoked) and raises nothing. -/
theorem once_semantics (α : Type) (P : Prog α) (fuel g : Nat) (name : String) (id : Nat)
    (v1 v2 : List (String × SetValue α)) (st : St α)
    (hl : P.taskLists name = some [id])
    (h1 : ∀ n, id ∈ (P.taskLists n).getD [] → n = name)
    (h2 : ∀ j, ¬ name ∈ (P.taskdefs j).depends)
    (honce : (P.taskdefs id).once = true)
    (hc : st.called id = false)
    (he : (calltaskF P (fuel + 1) name v1 st).err = none) :
    countBody id (calltaskF P (fuel + 1) name v1 st).tr = 1 ∧
    (∃ tr0, (calltaskF P (fuel + 1) name v1 st).tr =
        tr0 ++ [Event.bodyRun id
          ((((st.env.push []).update (P.taskdefs id).vars).update v1).varMap)] ∧
      countBody id tr0 = 0) ∧
    (calltaskF P (fuel + 1) name v1 st).st.called id = true ∧
    calltaskF P (g + 1) name v2 (calltaskF P (fuel + 1) name v1 st).st =
      ⟨(calltaskF P (fuel + 1) name v1 st).st, [], none⟩ := by
  have hskip : ((P.taskdefs id).once && st.called id) = false := by
    rw [honce, hc]
    rfl
  have hentry : (runEntryWith (calltaskF P fuel) P id v1 st).err = none := by
    cases herr : (runEntryWith (calltaskF P fuel) P id v1 st).err with
    | none => rfl
    | some e =>
        rw [calltask_single_error P fuel name id v1 st e hl hskip herr] at he
        cases he
  have hdb := runEntryWith_err_none (calltaskF P fuel) P id v1 st hentry
  have hrun := runEntryWith_success (calltaskF P fuel) P id v1 st hdb.1 hdb.2
  have hcall := calltask_single_success P fuel name id v1 st hl hskip hentry
  have hAv := calltaskF_avoid name id P h1 h2 fuel
  have hdall : ∀ d ∈ (P.taskdefs id).depends, d ≠ name := by
    intro d hdd hdn
    exact h2 id (hdn ▸ hdd)
  have hdep_av := execDepsWith_avoid name id (calltaskF P fuel) hAv
    (P.taskdefs id).depends
    { st with env := ((st.env.push []).update (P.taskdefs id).vars).update v1 } hdall
  have hdep_env := execDepsWith_env (calltaskF P fuel) (calltaskF_env P fuel)
    (P.taskdefs id).depends
    { st with env := ((st.env.push []).update (P.taskdefs id).vars).update v1 }
  have htr : (calltaskF P (fuel + 1) name v1 st).tr =
      (execDepsWith (calltaskF P fuel) (P.taskdefs id).depends
        { st with env := ((st.env.push []).update (P.taskdefs id).vars).update v1 }).tr
      ++ [Event.bodyRun id (execDepsWith (calltaskF P fuel) (P.taskdefs id).depends
        { st with env := ((st.env.push []).update (P.taskdefs id).vars).update v1
        }).st.env.varMap] := by
    rw [hcall, hrun]
    simp
  have hcalled : (calltaskF P (fuel + 1) name v1 st).st.called id = true := by
    rw [hcall, hrun]
    simp
  refine ⟨?_, ?_, hcalled, ?_⟩
  · rw [htr, countBody_append, hdep_av.2, countBody_single, if_pos rfl]
  · refine ⟨(execDepsWith (calltaskF P fuel) (P.taskdefs id).depends
      { st with env := ((st.env.push []).update (P.taskdefs id).vars).update v1 }).tr,
      ?_, hdep_av.2⟩
    rw [htr, hdep_env.1]
  · apply calltask_single_skip
    · exact hl
    · rw [honce, hcalled]
      rfl

/-- C3 witness: task `A` of the concrete program invoked twice with
different extra variables; the first invocation succeeds and runs the
body once, the second returns the state unchanged with an empty trace. -/
theorem once_semantics_witness :
    st0.called 0 = false ∧
    (calltaskF progC4 2 "A" [("V", SetValue.plain "a")] st0).err = none ∧
    countBody 0 (calltaskF progC4 2 "A" [("V", SetValue.plain "a")] st0).tr = 1 ∧
    calltaskF progC4 1 "A" [("V", SetValue.plain "b")]
        (calltaskF progC4 2 "A" [("V", SetValue.plain "a")] st0).st =
      ⟨(calltaskF progC4 2 "A" [("V", SetValue.plain "a")] st0).st, [], none⟩ := by
  have h := once_semantics String progC4 1 0 "A" 0 [("V", SetValue.plain "a")]
    [("V", SetValue.plain "b")] st0 (by decide)
    (by
      intro n hn
      by_cases hA : n = "A"
      · exact hA
      · exfalso
        by_cases hB : n = "B"
        · simp [progC4, hA, hB] at hn
        · by_cases hC : n = "C"
          · simp [progC4, hA, hB, hC] at hn
          · simp [progC4, hA, hB, hC] at hn)
    (by
      intro j
      by_cases hj : j = 0
      · simp [progC4, hj]
      · simp [progC4, hj])
    (by decide) (by decide) (by decide)
  exact ⟨by decide, by decide, h.1, h.2.2.2⟩

/-- A non-skipped execution is the full path. -/
theorem execEntryWith_not_skipped {α : Type} (callt : CallFn α) (P : Prog α) (id : Nat)
    (vars : List (String × SetValue α)) (st : St α)
    (h : ((P.taskdefs id).once && st.called id) = false) :
    execEntryWith callt P id vars st = runEntryWith callt P id vars st := by
  simp only [execEntryWith, h, Bool.false_eq_true, if_false]

/-- C10: a once task's called flag is set only after its body returns
without error.  Under the same registration-locality hypotheses as C3,
for a non-skipped execution of definition `id`: if it raises (a
dependency or the body failed) the called flag is still false and the
environment's variable mapping and scope stack are restored (the scope
is popped on the error path), so a subsequent invocation takes the full
path again — re-running dependencies and body — rather than the
once-skip; if it returns without error the called flag is true. -/
theorem once_error_recovery (α : Type) (P : Prog α) (fuel g : Nat) (name : String)
    (id : Nat) (vars vars2 : List (String × SetValue α)) (st : St α)
    (h1 : ∀ n, id ∈ (P.taskLists n).getD [] → n = name)
    (h2 : ∀ j, ¬ name ∈ (P.taskdefs j).depends)
    (honce : (P.taskdefs id).once = true)
    (hc : st.called id = false) :
    ((execEntryWith (calltaskF P fuel) P id vars st).err ≠ none →
      (execEntryWith (calltaskF P fuel) P id vars st).st.called id = false ∧
      (execEntryWith (calltaskF P fuel) P id vars st).st.env.varMap = st.env.varMap ∧
      (execEntryWith (calltaskF P fuel) P id vars st).st.env.varStack = st.env.varStack ∧
      execEntryWith (calltaskF P g) P id vars2
          (execEntryWith (calltaskF P fuel) P id vars st).st =
        runEntryWith (calltaskF P g) P id vars2
          (execEntryWith (calltaskF P fuel) P id vars st).st) ∧
    ((execEntryWith (calltaskF P fuel) P id vars st).err = none →
      (execEntryWith (calltaskF P fuel) P id vars st).st.called id = true) := by
  have hskip : ((P.taskdefs id).once && st.called id) = false := by
    rw [honce, hc]
    rfl
  have hE : execEntryWith (calltaskF P fuel) P id vars st
      = runEntryWith (calltaskF P fuel) P id vars st :=
    execEntryWith_not_skipped (calltaskF P fuel) P id vars st hskip
  have hAv := calltaskF_avoid name id P h1 h2 fuel
  have hdall : ∀ d ∈ (P.taskdefs id).depends, d ≠ name := by
    intro d hdd hdn
    exact h2 id (hdn ▸ hdd)
  have hdep_av := execDepsWith_avoid name id (calltaskF P fuel) hAv
    (P.taskdefs id).depends
    { st with env := ((st.env.push []).update (P.taskdefs id).vars).update vars } hdall
  have henv := execEntryWith_env (calltaskF P fuel) (calltaskF_env P fuel) P id vars st
  constructor
  · intro hne
    have hcf : (execEntryWith (calltaskF P fuel) P id vars st).st.called id = false := by
      rw [hE]
      rw [hE] at hne
      cases hd : (execDepsWith (calltaskF P fuel) (P.taskdefs id).depends
          { st with env := ((st.env.push []).update (P.taskdefs id).vars).update vars
          }).err with
      | some e =>
          simp only [runEntryWith, hd]
          exact hdep_av.1.trans hc
      | none =>
          cases hbf : P.bodyFail id ((execDepsWith (calltaskF P fuel) (P.taskdefs id).depends
              { st with env := ((st.env.push []).update (P.taskdefs id).vars).update vars
              }).st.runs id) with
          | false =>
              exfalso
              apply hne
              rw [runEntryWith_success (calltaskF P fuel) P id vars st hd hbf]
          | true =>
              simp only [runEntryWith, hd, runBody, hbf, if_true]
              exact hdep_av.1.trans hc
    refine ⟨hcf, henv.1, henv.2, ?_⟩
    apply execEntryWith_not_skipped
    rw [honce, hcf]
    rfl
  · intro hok
    rw [hE] at hok
    have hdb := runEntryWith_err_none (calltaskF P fuel) P id vars st hok
    rw [hE, runEntryWith_success (calltaskF P fuel) P id vars st hdb.1 hdb.2]
    simp

/-- Concrete program for the C10 witness: a single once task `A`
(definition 0) with no dependencies whose body raises on its first run
and succeeds afterwards. -/
def progC10 : Prog String :=
  { taskLists := fun n => if n = "A" then some [0] else none,
    taskdefs := fun _ => ⟨true, [], []⟩,
    bodyFail := fun j k => j == 0 && k == 0 }

/-- C10 witness: the first execution of the once task raises, its
called flag stays false, and the next execution takes the full path
again. -/
theorem once_error_recovery_witness :
    (execEntryWith (calltaskF progC10 1) progC10 0 [] st0).err ≠ none ∧
    (execEntryWith (calltaskF progC10 1) progC10 0 [] st0).st.called 0 = false ∧
    execEntryWith (calltaskF progC10 1) progC10 0 []
        (execEntryWith (calltaskF progC10 1) progC10 0 [] st0).st =
      runEntryWith (calltaskF progC10 1) progC10 0 []
        (execEntryWith (calltaskF progC10 1) progC10 0 [] st0).st := by
  have h := once_error_recovery String progC10 1 1 "A" 0 [] [] st0
    (by
      intro n hn
      by_cases hA : n = "A"
      · exact hA
      · exfalso
        simp [progC10, hA] at hn)
    (by
      intro j
      simp [progC10])
    (by decide) (by decide)
  have hne : (execEntryWith (calltaskF progC10 1) progC10 0 [] st0).err ≠ none := by
    decide
  exact ⟨hne, (h.1 hne).1, (h.1 hne).2.2.2⟩

end TaskRun
